import Mathlib

/-!
Verification development for the `mc` MongoDB collection transfer utility.

The subject is the binary container format implemented in
`internal/storage/file.go` (format marker "MCBZ", version 1): a header
(4-byte magic, 1 version byte, 4-byte little-endian metadata length,
BSON metadata blob) followed by a body of batches, each a 4-byte
little-endian document count followed by length-prefixed documents.
The body passes through a zstd compression adapter; here the container
logic is modelled at the byte-stream level on each side of that adapter
(the bytes the writer hands to the compressor, and the bytes the reader
pulls from the decompressor), which is exactly the layer the container
code operates on.

Bytes are modelled as natural numbers, streams as `List Nat`, and
`io.ReadFull` with its exact EOF / unexpected-EOF distinction.  The
BSON metadata codec is modelled for the subset of element types the
program writes (string and int64 elements), following the BSON wire
format the external library implements.
-/

namespace MC

/-- Errors produced by `io.ReadFull`: `eof` when no byte could be read,
`unexpectedEof` when only part of the requested bytes could be read. -/
inductive IOE
  | eof
  | unexpectedEof
deriving DecidableEq

/-- Model of `io.ReadFull buf` reading `k` bytes from stream `s`: on success
returns the bytes read and the remaining stream; on failure the reader has
consumed everything available. -/
def readFull (k : Nat) (s : List Nat) : Except IOE (List Nat) × List Nat :=
  if k ≤ s.length then (Except.ok (s.take k), s.drop k)
  else if s.length = 0 then (Except.error IOE.eof, [])
  else (Except.error IOE.unexpectedEof, [])

/-- 4-byte little-endian encoding, as `binary.LittleEndian.PutUint32`
(the value is taken modulo 2^32 by the byte decomposition itself). -/
def le32 (n : Nat) : List Nat :=
  [n % 256, n / 256 % 256, n / 65536 % 256, n / 16777216 % 256]

/-- 8-byte little-endian encoding, as BSON int64 values are laid out. -/
def le64 (n : Nat) : List Nat :=
  [n % 256, n / 256 % 256, n / 65536 % 256, n / 16777216 % 256,
   n / 4294967296 % 256, n / 1099511627776 % 256,
   n / 281474976710656 % 256, n / 72057594037927936 % 256]

/-- Decode 4 little-endian bytes, as `binary.LittleEndian.Uint32`. -/
def dec32 (b : List Nat) : Nat :=
  match b with
  | [a, b1, c, d] => a + 256 * b1 + 65536 * c + 16777216 * d
  | _ => 0

/-- Decode 8 little-endian bytes (BSON int64 payload). -/
def dec64 (b : List Nat) : Nat :=
  match b with
  | [a, b1, c, d, e, f, g, h] =>
      a + 256 * b1 + 65536 * c + 16777216 * d + 4294967296 * e +
        1099511627776 * f + 281474976710656 * g + 72057594037927936 * h
  | _ => 0

/-! BSON subset: the element types the program writes into its metadata
document and its batch documents (type 0x02 string, type 0x12 int64). -/

/-- A BSON value of the subset used by the program. -/
inductive BVal
  | str (s : List Nat)
  | i64 (n : Nat)
deriving DecidableEq

/-- A BSON document: ordered keyed elements (`bson.D`); keys are byte lists. -/
abbrev BDoc := List (List Nat × BVal)

/-- Wire encoding of one BSON element. -/
def encElem : List Nat × BVal → List Nat
  | (k, BVal.str s) => 2 :: (k ++ [0] ++ le32 (s.length + 1) ++ s ++ [0])
  | (k, BVal.i64 n) => 18 :: (k ++ [0] ++ le64 n)

/-- `bson.Marshal` on the subset: total length, elements, terminator. -/
def bsonMarshal (d : BDoc) : List Nat :=
  let body := d.foldr (fun e acc => encElem e ++ acc) [0]
  le32 (4 + body.length) ++ body

/-- Read a BSON cstring: bytes up to and excluding the 0 terminator. -/
def takeCString : List Nat → Option (List Nat × List Nat)
  | [] => none
  | 0 :: t => some ([], t)
  | c :: t =>
    match takeCString t with
    | none => none
    | some (k, r) => some (c :: k, r)

/-- Parse the element region of a BSON document (fuel-bounded). -/
def parseElems : Nat → List Nat → Option BDoc
  | 0, _ => none
  | _ + 1, [0] => some []
  | f + 1, 2 :: t =>
    (match takeCString t with
     | none => none
     | some (k, r) =>
       match r with
       | l0 :: l1 :: l2 :: l3 :: r2 =>
         (let sl := dec32 [l0, l1, l2, l3]
          if 0 < sl ∧ sl ≤ r2.length then
            (let content := r2.take sl
             if content.getLast? = some 0 then
               match parseElems f (r2.drop sl) with
               | none => none
               | some d => some ((k, BVal.str content.dropLast) :: d)
             else none)
          else none)
       | _ => none)
  | f + 1, 18 :: t =>
    (match takeCString t with
     | none => none
     | some (k, r) =>
       match r with
       | b0 :: b1 :: b2 :: b3 :: b4 :: b5 :: b6 :: b7 :: r2 =>
         (match parseElems f r2 with
          | none => none
          | some d =>
            some ((k, BVal.i64 (dec64 [b0, b1, b2, b3, b4, b5, b6, b7])) :: d))
       | _ => none)
  | _ + 1, _ => none

/-- `bson.Unmarshal` on the subset: the declared total length must match
the blob, and the element region must parse down to the terminator. -/
def bsonUnmarshal (s : List Nat) : Option BDoc :=
  match s with
  | l0 :: l1 :: l2 :: l3 :: rest =>
    if dec32 [l0, l1, l2, l3] = s.length then parseElems s.length rest else none
  | _ => none

/-- Go map lookup on the decoded document (`bson.M`). -/
def bLookup (d : BDoc) (k : List Nat) : Option BVal :=
  match d.find? (fun e => e.1 = k) with
  | none => none
  | some e => some e.2

/-- Go type assertion `.(string)`: succeeds only on a present string value. -/
def asStr : Option BVal → Option (List Nat)
  | some (BVal.str s) => some s
  | _ => none

/-- Go type assertion `.(int64)`: succeeds only on a present int64 value. -/
def asI64 : Option BVal → Option Nat
  | some (BVal.i64 n) => some n
  | _ => none

/-! The container format of `internal/storage/file.go`. -/

/-- The format marker `magicNumber = "MCBZ"` as bytes. -/
def magicNumber : List Nat := [77, 67, 66, 90]

/-- The single supported format version. -/
def fileVersion : Nat := 1

/-- The reserved header region: `headerSize := 4 + 1 + 4 + 100`
(magic + version + metadata length + estimated metadata); the compressed
body begins at this offset. -/
def headerSize : Nat := 4 + 1 + 4 + 100

/-- `Metadata` of `file.go`; text fields are byte lists. -/
structure Metadata where
  database : List Nat
  collection : List Nat
  documentCount : Nat
  timestamp : Nat
  source : List Nat
  originalSize : Nat
  compressedSize : Nat
deriving DecidableEq

def keyDatabase : List Nat := [100, 97, 116, 97, 98, 97, 115, 101]
def keyCollection : List Nat := [99, 111, 108, 108, 101, 99, 116, 105, 111, 110]
def keyDocumentCount : List Nat :=
  [100, 111, 99, 117, 109, 101, 110, 116, 67, 111, 117, 110, 116]
def keyTimestamp : List Nat := [116, 105, 109, 101, 115, 116, 97, 109, 112]
def keySource : List Nat := [115, 111, 117, 114, 99, 101]
def keyOriginalSize : List Nat :=
  [111, 114, 105, 103, 105, 110, 97, 108, 83, 105, 122, 101]
def keyCompressedSize : List Nat :=
  [99, 111, 109, 112, 114, 101, 115, 115, 101, 100, 83, 105, 122, 101]
def keyArchitecture : List Nat :=
  [97, 114, 99, 104, 105, 116, 101, 99, 116, 117, 114, 101]

/-- The value `"cross-platform"` written under the `architecture` key. -/
def crossPlatform : List Nat :=
  [99, 114, 111, 115, 115, 45, 112, 108, 97, 116, 102, 111, 114, 109]

/-- The `metadataDoc` `bson.D` built in `WriteFooter`. -/
def metadataDoc (m : Metadata) : BDoc :=
  [(keyDatabase, BVal.str m.database),
   (keyCollection, BVal.str m.collection),
   (keyDocumentCount, BVal.i64 m.documentCount),
   (keyTimestamp, BVal.i64 m.timestamp),
   (keySource, BVal.str m.source),
   (keyOriginalSize, BVal.i64 m.originalSize),
   (keyCompressedSize, BVal.i64 m.compressedSize),
   (keyArchitecture, BVal.str crossPlatform)]

/-- The marshalled metadata blob written by `WriteFooter`. -/
def metadataBytes (m : Metadata) : List Nat := bsonMarshal (metadataDoc m)

/-- The full header `WriteFooter` writes at offset 0: magic, version byte,
4-byte metadata length, metadata blob. -/
def headerBytes (m : Metadata) : List Nat :=
  magicNumber ++ [fileVersion] ++ le32 (metadataBytes m).length ++ metadataBytes m

/-- Errors of `FileReader.ReadHeader`. The Go function has no
metadata-size ceiling and no dedicated too-large error; a failed type
assertion on the decoded map is a runtime panic, modelled as `panicked`. -/
inductive HErr
  | io (e : IOE)
  | invalidFormat (got : List Nat)
  | unsupportedVersion (v : Nat)
  | unmarshalFail
  | panicked
deriving DecidableEq

/-- `FileReader.ReadHeader`: magic, version, metadata length, metadata blob,
`bson.Unmarshal`, then direct type assertions on every expected key.
Returns the result together with the unconsumed remainder of the stream. -/
def readHeader (s : List Nat) : Except HErr Metadata × List Nat :=
  match readFull 4 s with
  | (Except.error e, r) => (Except.error (HErr.io e), r)
  | (Except.ok m4, r) =>
    if m4 = magicNumber then
      match readFull 1 r with
      | (Except.error e, r1) => (Except.error (HErr.io e), r1)
      | (Except.ok vb, r1) =>
        if vb.headD 0 = fileVersion then
          match readFull 4 r1 with
          | (Except.error e, r2) => (Except.error (HErr.io e), r2)
          | (Except.ok lenB, r2) =>
            match readFull (dec32 lenB) r2 with
            | (Except.error e, r3) => (Except.error (HErr.io e), r3)
            | (Except.ok blob, r3) =>
              match bsonUnmarshal blob with
              | none => (Except.error HErr.unmarshalFail, r3)
              | some d =>
                match asStr (bLookup d keyDatabase),
                      asStr (bLookup d keyCollection),
                      asI64 (bLookup d keyDocumentCount),
                      asI64 (bLookup d keyTimestamp),
                      asStr (bLookup d keySource),
                      asI64 (bLookup d keyOriginalSize),
                      asI64 (bLookup d keyCompressedSize) with
                | some db, some coll, some dc, some ts, some src, some os, some cs =>
                  (Except.ok ⟨db, coll, dc, ts, src, os, cs⟩, r3)
                | _, _, _, _, _, _, _ => (Except.error HErr.panicked, r3)
        else (Except.error (HErr.unsupportedVersion (vb.headD 0)), r1)
    else (Except.error (HErr.invalidFormat m4), r)

/-- Errors of `FileReader.ReadBatch`. -/
inductive BErr
  | io (e : IOE)
  | unmarshalFail
deriving DecidableEq

/-- Result of `ReadBatch`: the returned slice (`none` models a nil slice),
the returned error, and the unconsumed remainder of the body stream. -/
structure RBRes where
  batch : Option (List BDoc)
  err : Option BErr
  rest : List Nat
deriving DecidableEq

/-- The per-document loop of `ReadBatch`: for each of `n` documents read a
4-byte length, that many payload bytes, and `bson.Unmarshal` them; any
failure returns the documents accumulated so far together with the error. -/
def readDocsAux : Nat → List Nat → List BDoc → RBRes
  | 0, s, acc => ⟨some acc, none, s⟩
  | n + 1, s, acc =>
    match readFull 4 s with
    | (Except.error e, r) => ⟨some acc, some (BErr.io e), r⟩
    | (Except.ok lenB, r) =>
      match readFull (dec32 lenB) r with
      | (Except.error e, r2) => ⟨some acc, some (BErr.io e), r2⟩
      | (Except.ok db, r2) =>
        match bsonUnmarshal db with
        | none => ⟨some acc, some BErr.unmarshalFail, r2⟩
        | some d => readDocsAux n r2 (acc ++ [d])

/-- `FileReader.ReadBatch maxBatchSize` over the decompressed body stream:
end-of-input at the batch-count read is an empty batch with no error; the
declared count is clamped to `maxBatchSize` and never otherwise checked. -/
def readBatch (maxBatchSize : Nat) (s : List Nat) : RBRes :=
  match readFull 4 s with
  | (Except.error IOE.eof, r) => ⟨some [], none, r⟩
  | (Except.error IOE.unexpectedEof, r) => ⟨none, some (BErr.io IOE.unexpectedEof), r⟩
  | (Except.ok cb, r) =>
    readDocsAux (min (dec32 cb) maxBatchSize) r []

/-- One marshalled document as written by `WriteBatch`: 4-byte length
prefix then the `bson.Marshal` bytes. -/
def encDoc (d : BDoc) : List Nat := le32 (bsonMarshal d).length ++ bsonMarshal d

/-- `FileWriter.WriteBatch`: 4-byte document count then each document. -/
def writeBatch (batch : List BDoc) : List Nat :=
  le32 batch.length ++ batch.foldr (fun d acc => encDoc d ++ acc) []

/-- The body bytes produced by a sequence of `WriteBatch` calls. -/
def writeBatches (bs : List (List BDoc)) : List Nat :=
  bs.foldr (fun b acc => writeBatch b ++ acc) []

/-- A raw length-prefixed payload (document framing without BSON decoding). -/
def encPayload (p : List Nat) : List Nat := le32 p.length ++ p

/-- Concatenated length-prefixed payloads. -/
def encPayloads (ps : List (List Nat)) : List Nat :=
  ps.foldr (fun p acc => encPayload p ++ acc) []

/-- A payload together with the document `bson.Unmarshal` yields from it
(and the uint32 range bound its length prefix needs). -/
def docOk (p : List Nat) (d : BDoc) : Prop :=
  bsonUnmarshal p = some d ∧ p.length < 4294967296

/-! Writer-side file model: `WriteFooter` seeks and overwrites, so the
file is a byte list with a write-at-offset operation (a seek past the end
reads back as zero bytes, as for a sparse file). -/

/-- Overwrite `data` into `file` starting at `pos`, extending as needed. -/
def writeAt (file : List Nat) (pos : Nat) (data : List Nat) : List Nat :=
  file.take pos ++ List.replicate (pos - file.length) 0 ++ data ++
    file.drop (pos + data.length)

/-- Observable outcome of `FileWriter.WriteFooter`: the file contents, the
final file position, the position after the compressor close (the true end
of the body), and the metadata record that was written. -/
structure FooterOut where
  fileData : List Nat
  pos : Nat
  endPosition : Nat
  written : Metadata
deriving DecidableEq

/-- `FileWriter.WriteFooter`, with the zstd encoder abstracted by the bytes
`closeBytes` its `Close` appends at the current position. The code records
`originalPosition` BEFORE closing the compressor, closes it, computes
`compressedSize = endPosition - headerSize`, seeks to offset 0, writes the
header, and finally seeks back to `originalPosition`. -/
def writeFooter (fileData : List Nat) (pos : Nat) (stored : Metadata)
    (closeBytes : List Nat) (argDocCount : Nat) : FooterOut :=
  let m0 := { stored with documentCount := argDocCount }
  let originalPosition := pos
  let f1 := writeAt fileData pos closeBytes
  let endPosition := pos + closeBytes.length
  let m1 := { m0 with compressedSize := endPosition - headerSize }
  let f2 := writeAt f1 0 (headerBytes m1)
  ⟨f2, originalPosition, endPosition, m1⟩

/-! Close models: `FileWriter.Close` nils the compressor but never nils
`w.file`, so a second call invokes `os.File.Close` on the already-closed
handle, which returns `os.ErrClosed`. `FileReader.Close` has the same
shape with the decompressor. -/

/-- The error `os.File.Close` returns when called twice. -/
inductive CloseErr
  | errClosed
deriving DecidableEq

/-- `os.File.Close` on a handle: errors if already closed. -/
def osFileClose (alreadyClosed : Bool) : Option CloseErr × Bool :=
  if alreadyClosed then (some CloseErr.errClosed, true) else (none, true)

/-- State of a `FileWriter`'s handles: whether `w.compressor` is non-nil,
whether `w.file` is non-nil, and whether the OS handle is closed. -/
structure WriterHandles where
  compressorPtr : Bool
  filePtr : Bool
  fileClosed : Bool
deriving DecidableEq

/-- `FileWriter.Close`: closes and nils the compressor, then (since
`w.file` is never set to nil) always calls `w.file.Close()` again. -/
def fwClose (st : WriterHandles) : Option CloseErr × WriterHandles :=
  let st1 : WriterHandles := { st with compressorPtr := false }
  if st1.filePtr then
    let r := osFileClose st1.fileClosed
    (r.1, { st1 with fileClosed := r.2 })
  else (none, st1)

/-- State of a `FileReader`'s handles. -/
structure ReaderHandles where
  decompressorPtr : Bool
  filePtr : Bool
  fileClosed : Bool
deriving DecidableEq

/-- `FileReader.Close`: closes and nils the decompressor, then (since
`r.file` is never set to nil) always calls `r.file.Close()` again. -/
def frClose (st : ReaderHandles) : Option CloseErr × ReaderHandles :=
  let st1 : ReaderHandles := { st with decompressorPtr := false }
  if st1.filePtr then
    let r := osFileClose st1.fileClosed
    (r.1, { st1 with fileClosed := r.2 })
  else (none, st1)

/-- A freshly opened `FileWriter`: both pointers set, handle open. -/
def freshWriter : WriterHandles := ⟨true, true, false⟩

/-- A freshly opened `FileReader`: both pointers set, handle open. -/
def freshReader : ReaderHandles := ⟨true, true, false⟩

/-- `len(batch)` on a possibly-nil Go slice. -/
def rbLen (r : RBRes) : Nat :=
  match r.batch with
  | none => 0
  | some b => b.length

/-- The read loop of `db.ImportCollection`: pull batches until an error or
an empty batch; returns the number of documents imported and the error. -/
def importLoop (n : Nat) (s : List Nat) : Nat × Option BErr :=
  if (readBatch n s).err = none then
    if hb : rbLen (readBatch n s) = 0 then (0, none)
    else
      have t := importLoop n (readBatch n s).rest
      (rbLen (readBatch n s) + t.1, t.2)
  else (0, (readBatch n s).err)
termination_by s.length
decreasing_by
  have aux : ∀ (k : Nat) (s2 : List Nat), (readFull k s2).2.length ≤ s2.length := by
    intro k s2
    unfold readFull
    split
    · simp
    · split <;> simp
  have aux2 : ∀ (k : Nat) (s2 : List Nat) (acc : List BDoc),
      (readDocsAux k s2 acc).rest.length ≤ s2.length := by
    intro k
    induction k with
    | zero => intro s2 acc; simp [readDocsAux]
    | succ k2 ih =>
      intro s2 acc
      unfold readDocsAux
      split
      · next e r heq =>
        have h1 := aux 4 s2
        rw [heq] at h1
        simpa using h1
      · next lenB r heq =>
        have h1 := aux 4 s2
        rw [heq] at h1
        simp only at h1
        split
        · next e r2 heq2 =>
          have h2 := aux (dec32 lenB) r
          rw [heq2] at h2
          simp only at h2
          exact le_trans h2 h1
        · next db r2 heq2 =>
          have h2 := aux (dec32 lenB) r
          rw [heq2] at h2
          simp only at h2
          split
          · simpa using le_trans h2 h1
          · exact le_trans (le_trans (ih r2 _) h2) h1
  have aux3 : ∀ (k : Nat) (s2 t r2 : List Nat), readFull k s2 = (Except.ok t, r2) →
      r2 = s2.drop k ∧ k ≤ s2.length := by
    intro k s2 t r2 h
    unfold readFull at h
    by_cases hk : k ≤ s2.length
    · rw [if_pos hk, Prod.mk.injEq] at h
      exact ⟨h.2.symm, hk⟩
    · rw [if_neg hk] at h
      by_cases h0 : s2.length = 0 <;> simp [h0] at h
  unfold readBatch at hb ⊢
  split at hb
  · simp [rbLen] at hb
  · simp [rbLen] at hb
  · next cb r heq =>
    obtain ⟨hr, hk⟩ := aux3 4 s cb r heq
    have h1 := aux2 (min (dec32 cb) n) r []
    have h2 : r.length = s.length - 4 := by rw [hr]; simp
    omega

end MC

namespace MC

/-! Supporting lemmas. -/

theorem le32_length (n : Nat) : (le32 n).length = 4 := rfl

theorem dec32_le32 (n : Nat) (h : n < 4294967296) : dec32 (le32 n) = n := by
  simp only [le32, dec32]
  omega

/-- `readFull` on a stream beginning with exactly the requested bytes. -/
theorem readFull_exact (k : Nat) (p r : List Nat) (h : p.length = k) :
    readFull k (p ++ r) = (Except.ok p, r) := by
  subst h
  simp [readFull, List.take_left, List.drop_left]

/-- `readFull` on a stream shorter than the request fails, consuming all. -/
theorem readFull_short (k : Nat) (s : List Nat) (h : s.length < k) :
    readFull k s =
      (Except.error (if s.length = 0 then IOE.eof else IOE.unexpectedEof), []) := by
  by_cases h0 : s.length = 0 <;> simp [readFull, h, h0, Nat.not_le.mpr h] <;> omega

theorem encPayloads_cons (p : List Nat) (ps : List (List Nat)) :
    encPayloads (p :: ps) = le32 p.length ++ (p ++ encPayloads ps) := by
  simp [encPayloads, encPayload]

theorem encPayloads_append (a b : List (List Nat)) :
    encPayloads (a ++ b) = encPayloads a ++ encPayloads b := by
  induction a with
  | nil => simp [encPayloads]
  | cons p t ih => simp [encPayloads_cons, ih, List.append_assoc]

/-- One iteration of the document loop over a well-formed document. -/
theorem readDocsAux_step (n : Nat) (p : List Nat) (d : BDoc) (r : List Nat)
    (acc : List BDoc) (hp : bsonUnmarshal p = some d)
    (hlen : p.length < 4294967296) :
    readDocsAux (n + 1) (le32 p.length ++ (p ++ r)) acc =
      readDocsAux n r (acc ++ [d]) := by
  conv_lhs => rw [readDocsAux]
  rw [readFull_exact 4 (le32 p.length) (p ++ r) (le32_length p.length)]
  simp only [dec32_le32 p.length hlen]
  rw [readFull_exact p.length p r rfl]
  simp [hp]

/-- The document loop consumes a run of well-formed documents wholesale. -/
theorem readDocsAux_append {ps : List (List Nat)} {ds : List BDoc}
    (h : List.Forall₂ docOk ps ds) (n : Nat) (tail : List Nat)
    (acc : List BDoc) :
    readDocsAux (ps.length + n) (encPayloads ps ++ tail) acc =
      readDocsAux n tail (acc ++ ds) := by
  induction h generalizing acc with
  | nil => simp [encPayloads]
  | @cons p d ps2 ds2 hpd htl ih =>
    have hlen : (p :: ps2).length + n = (ps2.length + n) + 1 := by
      simp [Nat.succ_add]
    rw [hlen, encPayloads_cons]
    simp only [List.append_assoc]
    rw [readDocsAux_step (ps2.length + n) p d (encPayloads ps2 ++ tail) acc
        hpd.1 hpd.2, ih]
    simp

/-- The document loop over exactly the encoded documents. -/
theorem readDocsAux_exact {ps : List (List Nat)} {ds : List BDoc}
    (h : List.Forall₂ docOk ps ds) (tail : List Nat) (acc : List BDoc) :
    readDocsAux ps.length (encPayloads ps ++ tail) acc =
      ⟨some (acc ++ ds), none, tail⟩ := by
  have h0 := readDocsAux_append h 0 tail acc
  rw [Nat.add_zero] at h0
  rw [h0]
  rfl

/-- `ReadBatch` on a stream with a syntactically present count field. -/
theorem readBatch_count (maxN c : Nat) (r : List Nat) (hc : c < 4294967296) :
    readBatch maxN (le32 c ++ r) = readDocsAux (min c maxN) r [] := by
  unfold readBatch
  rw [readFull_exact 4 (le32 c) r (le32_length c)]
  simp [dec32_le32 c hc]

/-- Unfolding equation of the import loop. -/
theorem importLoop_eq (n : Nat) (s : List Nat) :
    importLoop n s =
      if (readBatch n s).err = none then
        if rbLen (readBatch n s) = 0 then (0, none)
        else (rbLen (readBatch n s) + (importLoop n (readBatch n s).rest).1,
              (importLoop n (readBatch n s).rest).2)
      else (0, (readBatch n s).err) := by
  rw [importLoop]
  simp only [dite_eq_ite]

set_option maxRecDepth 8000 in
/-- Byte length of the marshalled metadata document: a fixed 171 bytes of
keys, tags, lengths and integer payloads plus the three variable strings. -/
theorem metadataBytes_length (m : Metadata) :
    (metadataBytes m).length =
      171 + m.database.length + m.collection.length + m.source.length := by
  simp [metadataBytes, bsonMarshal, metadataDoc, encElem, le32, le64,
    keyDatabase, keyCollection, keyDocumentCount, keyTimestamp, keySource,
    keyOriginalSize, keyCompressedSize, keyArchitecture, crossPlatform]
  omega

/-- Byte length of the header `WriteFooter` writes at offset 0. -/
theorem headerBytes_length (m : Metadata) :
    (headerBytes m).length =
      180 + m.database.length + m.collection.length + m.source.length := by
  simp [headerBytes, metadataBytes_length, magicNumber, fileVersion, le32]
  omega

theorem writeAt_zero (f data : List Nat) :
    writeAt f 0 data = data ++ f.drop data.length := by
  simp [writeAt]

theorem take_writeAt_zero (f data : List Nat) :
    (writeAt f 0 data).take data.length = data := by
  rw [writeAt_zero]
  exact List.take_left data (f.drop data.length)

end MC

namespace MC

/-! Claim theorems. -/

/-- C1: the claimed write/finalize/read round trip is impossible in this code.
`NewFileWriter` starts the compressed body at `headerSize = 109` (which
budgets 100 bytes for the metadata blob), but the header `WriteFooter`
writes from offset 0 is always `180 + |database| + |collection| + |source|`
bytes (the blob alone is at least 171 bytes), so finalize always overwrites
at least the first 71 bytes of the compressed body: the finalized file's
initial `(headerBytes).length > headerSize` bytes are the header, destroying
the start of the zstd stream the reader would need. -/
theorem c1_finalize_overruns_body (m : Metadata) (fd : List Nat) (pos : Nat)
    (cb : List Nat) (c : Nat) :
    (headerBytes m).length =
      180 + m.database.length + m.collection.length + m.source.length ∧
    headerSize < (headerBytes ((writeFooter fd pos m cb c).written)).length ∧
    (writeFooter fd pos m cb c).fileData.take
        (headerBytes ((writeFooter fd pos m cb c).written)).length =
      headerBytes ((writeFooter fd pos m cb c).written) := by
  refine ⟨headerBytes_length m, ?_, ?_⟩
  · rw [headerBytes_length]
    simp only [writeFooter, headerSize]
    omega
  · simp only [writeFooter]
    exact take_writeAt_zero _ _

/-- C2 (amended): `ReadHeader` validates, in order, the 4-byte marker (any
mismatch is a format error) and then the version byte (any unsupported value
is a version error); it then reads the 4-byte metadata length and attempts
to read that many bytes with NO sanity ceiling, so an absurdly large claimed
length surfaces as an I/O (EOF / unexpected EOF) error after the read is
attempted and the rest of the input consumed, not as a dedicated
corrupt/too-large rejection before reading. -/
theorem c2_header_order_no_ceiling :
    (∀ g rest : List Nat, g.length = 4 → g ≠ magicNumber →
      readHeader (g ++ rest) = (Except.error (HErr.invalidFormat g), rest)) ∧
    (∀ (v : Nat) (rest : List Nat), v ≠ fileVersion →
      readHeader (magicNumber ++ v :: rest) =
        (Except.error (HErr.unsupportedVersion v), rest)) ∧
    (∀ (len : Nat) (rest : List Nat), rest.length < len → len < 4294967296 →
      readHeader (magicNumber ++ fileVersion :: (le32 len ++ rest)) =
        (Except.error
          (HErr.io (if rest.length = 0 then IOE.eof else IOE.unexpectedEof)),
         [])) := by
  refine ⟨?_, ?_, ?_⟩
  · intro g rest h4 hne
    unfold readHeader
    rw [readFull_exact 4 g rest h4]
    simp [hne]
  · intro v rest hv
    unfold readHeader
    rw [show magicNumber ++ v :: rest = magicNumber ++ ([v] ++ rest) by simp]
    rw [readFull_exact 4 magicNumber ([v] ++ rest) rfl]
    simp only [if_pos rfl]
    rw [readFull_exact 1 [v] rest rfl]
    simp [hv]
  · intro len rest hlen hbound
    unfold readHeader
    rw [show magicNumber ++ fileVersion :: (le32 len ++ rest) =
      magicNumber ++ ([fileVersion] ++ (le32 len ++ rest)) by simp]
    rw [readFull_exact 4 magicNumber ([fileVersion] ++ (le32 len ++ rest)) rfl]
    simp only [if_pos rfl]
    rw [readFull_exact 1 [fileVersion] (le32 len ++ rest) rfl]
    simp only [List.headD_cons, if_pos rfl]
    rw [readFull_exact 4 (le32 len) rest (le32_length len)]
    simp only [dec32_le32 len hbound]
    rw [readFull_short len rest hlen]
    simp

/-- C2 witness: concrete instances of the three amended clauses. -/
theorem c2_header_witness :
    readHeader ([1, 2, 3, 4] ++ []) =
      (Except.error (HErr.invalidFormat [1, 2, 3, 4]), []) ∧
    readHeader (magicNumber ++ 2 :: []) =
      (Except.error (HErr.unsupportedVersion 2), []) ∧
    readHeader (magicNumber ++ fileVersion :: (le32 4294967295 ++ [5, 0, 0, 0, 0])) =
      (Except.error (HErr.io IOE.unexpectedEof), []) := by
  refine ⟨c2_header_order_no_ceiling.1 [1, 2, 3, 4] [] (by decide) (by decide),
    c2_header_order_no_ceiling.2.1 2 [] (by decide), ?_⟩
  have h := c2_header_order_no_ceiling.2.2 4294967295 [5, 0, 0, 0, 0]
    (by decide) (by decide)
  simpa using h

/-- C2 counterexample: with a well-formed marker and version and a declared
metadata length of 4294967295 over a 5-byte remainder, `ReadHeader` consumes
the whole remainder and returns an unexpected-EOF I/O error — there is no
too-large rejection before the read (the error type has no such case). -/
theorem c2_header_counterexample :
    readHeader (magicNumber ++ fileVersion :: (le32 4294967295 ++ [5, 0, 0, 0, 0])) =
      (Except.error (HErr.io IOE.unexpectedEof), []) := rfl

/-- C3: `ReadHeader` does not decode metadata defensively. On a blob that is
a perfectly valid BSON document but lacks the `database` key (here the empty
document `[5,0,0,0,0]`), the direct Go type assertion
`metadataDoc["database"].(string)` panics instead of yielding zero values. -/
theorem c3_missing_key_panics :
    readHeader (magicNumber ++ [fileVersion] ++ le32 5 ++ [5, 0, 0, 0, 0]) =
      (Except.error HErr.panicked, []) := rfl

/-- C4 (amended): `ReadBatch` has no per-document size ceiling and no
batch-count rejection. A declared document length larger than the remaining
input is only caught by the failing read itself (an I/O error after the read
is attempted, everything consumed), and an arbitrarily large declared batch
count is never rejected: it is clamped to `maxBatchSize` and reading
proceeds normally. -/
theorem c4_no_oversize_guard :
    (∀ (maxN c dl : Nat) (frag : List Nat),
      0 < min c maxN → frag.length < dl → dl < 4294967296 → c < 4294967296 →
      readBatch maxN (le32 c ++ (le32 dl ++ frag)) =
        ⟨some [],
         some (BErr.io (if frag.length = 0 then IOE.eof else IOE.unexpectedEof)),
         []⟩) ∧
    (∀ (maxN c : Nat) (ps : List (List Nat)) (ds : List BDoc) (tail : List Nat),
      List.Forall₂ docOk ps ds → ps.length = min c maxN → c < 4294967296 →
      readBatch maxN (le32 c ++ (encPayloads ps ++ tail)) = ⟨some ds, none, tail⟩) := by
  constructor
  · intro maxN c dl frag hmin hfrag hdl hc
    rw [readBatch_count maxN c (le32 dl ++ frag) hc]
    obtain ⟨m, hm⟩ : ∃ m, min c maxN = m + 1 := ⟨min c maxN - 1, by omega⟩
    rw [hm]
    conv_lhs => rw [readDocsAux]
    rw [readFull_exact 4 (le32 dl) frag (le32_length dl)]
    simp only [dec32_le32 dl hdl]
    rw [readFull_short dl frag hfrag]
  · intro maxN c ps ds tail hps hlen hc
    rw [readBatch_count maxN c (encPayloads ps ++ tail) hc, ← hlen,
      readDocsAux_exact hps tail []]
    simp

/-- C4 witness: concrete instances of both amended clauses. -/
theorem c4_oversize_witness :
    readBatch 4 (le32 2 ++ (le32 4294967295 ++ [9])) =
      ⟨some [], some (BErr.io IOE.unexpectedEof), []⟩ ∧
    readBatch 3 (le32 4294967295 ++
        (encPayloads [[5, 0, 0, 0, 0], [5, 0, 0, 0, 0], [5, 0, 0, 0, 0]] ++ [])) =
      ⟨some [[], [], []], none, []⟩ := by
  constructor
  · have h := c4_no_oversize_guard.1 4 2 4294967295 [9]
      (by decide) (by decide) (by decide) (by decide)
    simpa using h
  · exact c4_no_oversize_guard.2 3 4294967295
      [[5, 0, 0, 0, 0], [5, 0, 0, 0, 0], [5, 0, 0, 0, 0]] [[], [], []] []
      (List.Forall₂.cons ⟨rfl, by decide⟩ (List.Forall₂.cons ⟨rfl, by decide⟩
        (List.Forall₂.cons ⟨rfl, by decide⟩ List.Forall₂.nil)))
      (by decide) (by decide)

/-- C4 counterexample: a document declaring 4294967295 bytes over a 3-byte
remainder is not rejected with an oversize error before the read: the read
is attempted, everything is consumed and an unexpected-EOF I/O error comes
back; and a batch declaring 4294967295 documents is not rejected at all —
it is clamped to `maxBatchSize = 1` and returns one document with no error. -/
theorem c4_oversize_counterexample :
    readBatch 5 (le32 1 ++ (le32 4294967295 ++ [1, 2, 3])) =
      ⟨some [], some (BErr.io IOE.unexpectedEof), []⟩ ∧
    readBatch 1 (le32 4294967295 ++ encPayload [5, 0, 0, 0, 0]) =
      ⟨some [[]], none, []⟩ := by
  exact ⟨by decide, by decide⟩

/-- C5 (amended): if the input ends strictly inside a document length prefix
or inside (or right at the start of) a document payload, `ReadBatch` returns
an error; but at end-of-input exactly on a document boundary after at least
one document of the current batch, it returns the partial batch TOGETHER
WITH the EOF error (`return batch, err` with `err = io.EOF`), not with a nil
error as the claim states. -/
theorem c5_truncation (maxN c : Nat) (ps : List (List Nat)) (ds : List BDoc)
    (hps : List.Forall₂ docOk ps ds) (hc : c < 4294967296)
    (hk : ps.length < min c maxN) :
    (∀ (dl : Nat) (frag : List Nat), frag.length < dl → dl < 4294967296 →
      readBatch maxN (le32 c ++ (encPayloads ps ++ (le32 dl ++ frag))) =
        ⟨some ds,
         some (BErr.io (if frag.length = 0 then IOE.eof else IOE.unexpectedEof)),
         []⟩) ∧
    (∀ pp : List Nat, 0 < pp.length → pp.length < 4 →
      readBatch maxN (le32 c ++ (encPayloads ps ++ pp)) =
        ⟨some ds, some (BErr.io IOE.unexpectedEof), []⟩) ∧
    (ps ≠ [] →
      readBatch maxN (le32 c ++ encPayloads ps) =
        ⟨some ds, some (BErr.io IOE.eof), []⟩) := by
  have key : ∀ tail : List Nat,
      readBatch maxN (le32 c ++ (encPayloads ps ++ tail)) =
        readDocsAux (min c maxN - ps.length) tail ds := by
    intro tail
    rw [readBatch_count maxN c (encPayloads ps ++ tail) hc]
    have hmin : min c maxN = ps.length + (min c maxN - ps.length) := by omega
    conv_lhs => rw [hmin]
    rw [readDocsAux_append hps (min c maxN - ps.length) tail []]
    simp
  obtain ⟨m, hm⟩ : ∃ m, min c maxN - ps.length = m + 1 :=
    ⟨min c maxN - ps.length - 1, by omega⟩
  refine ⟨?_, ?_, ?_⟩
  · intro dl frag hfrag hdl
    rw [key, hm]
    conv_lhs => rw [readDocsAux]
    rw [readFull_exact 4 (le32 dl) frag (le32_length dl)]
    simp only [dec32_le32 dl hdl]
    rw [readFull_short dl frag hfrag]
  · intro pp hpe hlt
    rw [key, hm]
    conv_lhs => rw [readDocsAux]
    rw [readFull_short 4 pp hlt]
    simp [Nat.pos_iff_ne_zero.mp hpe]
  · intro hne
    have h0 : le32 c ++ encPayloads ps = le32 c ++ (encPayloads ps ++ []) := by simp
    rw [h0, key, hm]
    conv_lhs => rw [readDocsAux]
    rw [readFull_short 4 [] (by simp)]
    simp

/-- C5 witness: one complete document then a truncated length prefix, a
truncated payload, and a clean document boundary, each over a declared
count of 2. -/
theorem c5_truncation_witness :
    readBatch 10 (le32 2 ++ (encPayloads [[5, 0, 0, 0, 0]] ++ (le32 7 ++ [1, 2]))) =
      ⟨some [[]], some (BErr.io IOE.unexpectedEof), []⟩ ∧
    readBatch 10 (le32 2 ++ (encPayloads [[5, 0, 0, 0, 0]] ++ [1, 2])) =
      ⟨some [[]], some (BErr.io IOE.unexpectedEof), []⟩ ∧
    readBatch 10 (le32 2 ++ encPayloads [[5, 0, 0, 0, 0]]) =
      ⟨some [[]], some (BErr.io IOE.eof), []⟩ := by
  have hps : List.Forall₂ docOk [[5, 0, 0, 0, 0]] [([] : BDoc)] :=
    List.Forall₂.cons ⟨rfl, by decide⟩ List.Forall₂.nil
  have h := c5_truncation 10 2 [[5, 0, 0, 0, 0]] [[]] hps (by decide) (by decide)
  refine ⟨?_, h.2.1 [1, 2] (by decide) (by decide), h.2.2 (by decide)⟩
  have h1 := h.1 7 [1, 2] (by decide) (by decide)
  simpa using h1

/-- C5 counterexample: a batch declaring 2 documents whose input ends exactly
at the document boundary after 1 complete document: `ReadBatch` returns the
partial batch together with an EOF error, where the claim requires no
error. -/
theorem c5_truncation_counterexample :
    readBatch 10 (le32 2 ++ encPayload [5, 0, 0, 0, 0]) =
      ⟨some [[]], some (BErr.io IOE.eof), []⟩ := by decide

/-- C6: end-of-input at the batch-count read is the normal end-of-stream
signal: `ReadBatch` returns an empty batch and no error on an exhausted body
stream, and a writer that wrote zero batches produced an empty body stream,
so the first `ReadBatch` on such a container is exactly this case. -/
theorem c6_eof_empty_batch :
    (∀ n : Nat, readBatch n [] = ⟨some [], none, []⟩) ∧
    writeBatches [] = [] :=
  ⟨fun _ => rfl, rfl⟩

/-- C7 (amended): `WriteFooter` closes the compression adapter, seeks to
offset 0, writes the complete header (marker, version, metadata length,
blob) there, and then seeks to `originalPosition` — the position recorded
BEFORE the compressor was closed — so the final file position is the end of
the body EXCLUDING whatever trailer bytes the close emitted, not the true
end of the body. -/
theorem c7_footer_behavior (fd : List Nat) (pos : Nat) (m : Metadata)
    (cb : List Nat) (c : Nat) :
    (writeFooter fd pos m cb c).pos = pos ∧
    (writeFooter fd pos m cb c).endPosition = pos + cb.length ∧
    (writeFooter fd pos m cb c).written.documentCount = c ∧
    (writeFooter fd pos m cb c).written.compressedSize =
      pos + cb.length - headerSize ∧
    (writeFooter fd pos m cb c).fileData =
      headerBytes ((writeFooter fd pos m cb c).written) ++
        (writeAt fd pos cb).drop
          (headerBytes ((writeFooter fd pos m cb c).written)).length := by
  refine ⟨rfl, rfl, rfl, rfl, ?_⟩
  simp only [writeFooter]
  rw [writeAt_zero]

/-- C7 counterexample: with the compressor's close emitting 4 trailer bytes
at position 109, the final file position is 109 while the end of the body is
113 — the position is NOT restored to the end of the body. -/
theorem c7_footer_counterexample :
    (writeFooter (List.replicate 109 0) 109 ⟨[], [], 0, 0, [], 0, 0⟩
        [40, 181, 47, 253] 0).pos = 109 ∧
    (writeFooter (List.replicate 109 0) 109 ⟨[], [], 0, 0, [], 0, 0⟩
        [40, 181, 47, 253] 0).endPosition = 113 ∧
    (writeFooter (List.replicate 109 0) 109 ⟨[], [], 0, 0, [], 0, 0⟩
        [40, 181, 47, 253] 0).pos ≠
      (writeFooter (List.replicate 109 0) 109 ⟨[], [], 0, 0, [], 0, 0⟩
        [40, 181, 47, 253] 0).endPosition :=
  ⟨rfl, rfl, by decide⟩

/-- C8: Close is NOT idempotent. The first Close succeeds, but because
`w.file` (resp. `r.file`) is never set to nil, a second Close calls
`os.File.Close` on the already-closed handle again and returns its
`os.ErrClosed` error — for the writer and the reader alike. -/
theorem c8_double_close_errors :
    (fwClose freshWriter).1 = none ∧
    (fwClose (fwClose freshWriter).2).1 = some CloseErr.errClosed ∧
    (frClose freshReader).1 = none ∧
    (frClose (frClose freshReader).2).1 = some CloseErr.errClosed :=
  ⟨rfl, rfl, rfl, rfl⟩

/-- C9: when the declared (and actual) document count exceeds
`maxBatchSize`, `ReadBatch` materializes exactly the first `maxBatchSize`
documents with no error and leaves the remaining documents' bytes
unconsumed, and the unconsumed stream begins with the next document's
4-byte length prefix — exactly what the next `ReadBatch` call will decode
as a batch count. -/
theorem c9_clamp_leaves_surplus (maxN : Nat) (ps : List (List Nat))
    (ds : List BDoc) (tail : List Nat) (hps : List.Forall₂ docOk ps ds)
    (hlt : maxN < ps.length) (hc : ps.length < 4294967296) :
    readBatch maxN (le32 ps.length ++ (encPayloads ps ++ tail)) =
      ⟨some (ds.take maxN), none, encPayloads (ps.drop maxN) ++ tail⟩ ∧
    (encPayloads (ps.drop maxN) ++ tail).take 4 =
      le32 (ps.get ⟨maxN, hlt⟩).length := by
  constructor
  · have hlen : (ps.take maxN).length = maxN := by
      rw [List.length_take]
      omega
    have hsplit : encPayloads ps ++ tail =
        encPayloads (ps.take maxN) ++ (encPayloads (ps.drop maxN) ++ tail) := by
      conv_lhs => rw [← List.take_append_drop maxN ps]
      rw [encPayloads_append, List.append_assoc]
    rw [readBatch_count maxN ps.length (encPayloads ps ++ tail) hc,
      Nat.min_eq_right hlt.le, hsplit]
    have h2 := readDocsAux_exact (List.forall₂_take maxN hps)
      (encPayloads (ps.drop maxN) ++ tail) []
    rw [hlen] at h2
    rw [h2]
    simp
  · have hd : ps.drop maxN = ps.get ⟨maxN, hlt⟩ :: ps.drop (maxN + 1) := by
      rw [List.drop_eq_getElem_cons hlt]
      simp [List.get_eq_getElem]
    rw [hd, encPayloads_cons, List.append_assoc]
    rw [show (4 : Nat) = (le32 (ps.get ⟨maxN, hlt⟩).length).length from
      (le32_length _).symm]
    exact List.take_left _ _

/-- C9 witness: two documents declared and present, `maxBatchSize = 1`:
one document comes back with no error and the rest of the stream starts
with the second document's length prefix `le32 5`. -/
theorem c9_clamp_witness :
    readBatch 1 (le32 2 ++ (encPayloads [[5, 0, 0, 0, 0], [5, 0, 0, 0, 0]] ++ [7])) =
      ⟨some [[]], none, encPayloads [[5, 0, 0, 0, 0]] ++ [7]⟩ ∧
    (encPayloads ([[5, 0, 0, 0, 0], [5, 0, 0, 0, 0]].drop 1) ++ [7]).take 4 =
      le32 5 := by
  have hps : List.Forall₂ docOk [[5, 0, 0, 0, 0], [5, 0, 0, 0, 0]]
      [([] : BDoc), []] :=
    List.Forall₂.cons ⟨rfl, by decide⟩
      (List.Forall₂.cons ⟨rfl, by decide⟩ List.Forall₂.nil)
  have h := c9_clamp_leaves_surplus 1 [[5, 0, 0, 0, 0], [5, 0, 0, 0, 0]]
    [[], []] [7] hps (by decide) (by decide)
  constructor
  · have h1 := h.1
    simpa using h1
  · have h2 := h.2
    simpa using h2

/-- C10: `WriteBatch` on an empty document list writes the count prefix 0;
`ReadBatch` on such a batch returns an empty batch with no error and
consumes only those 4 bytes — the identical observable as end-of-input —
and the `ImportCollection` loop, which stops at the first empty batch,
imports 0 documents from a file whose first batch is empty even though a
non-empty batch follows (which alone would import 1 document). -/
theorem c10_empty_batch_end_of_stream :
    writeBatch ([] : List BDoc) = [0, 0, 0, 0] ∧
    (∀ (n : Nat) (rest : List Nat),
      readBatch n ([0, 0, 0, 0] ++ rest) = ⟨some [], none, rest⟩) ∧
    (∀ n : Nat, readBatch n [] = ⟨some [], none, []⟩) ∧
    importLoop 10 (writeBatch ([] : List BDoc) ++ writeBatch [([] : BDoc)]) =
      (0, none) ∧
    importLoop 10 (writeBatch [([] : BDoc)]) = (1, none) := by
  refine ⟨rfl, ?_, fun _ => rfl, ?_, ?_⟩
  · intro n rest
    have h0 : ([0, 0, 0, 0] : List Nat) = le32 0 := rfl
    rw [h0, readBatch_count n 0 rest (by decide)]
    simp [readDocsAux, Nat.zero_min]
  · rw [importLoop_eq]
    rw [if_pos (show (readBatch 10
        (writeBatch ([] : List BDoc) ++ writeBatch [([] : BDoc)])).err = none
        by decide),
      if_pos (show rbLen (readBatch 10
        (writeBatch ([] : List BDoc) ++ writeBatch [([] : BDoc)])) = 0
        by decide)]
  · rw [importLoop_eq]
    rw [if_pos (show (readBatch 10 (writeBatch [([] : BDoc)])).err = none
        by decide),
      if_neg (show ¬ rbLen (readBatch 10 (writeBatch [([] : BDoc)])) = 0
        by decide)]
    have h3 : (readBatch 10 (writeBatch [([] : BDoc)])).rest = [] := by decide
    rw [h3, importLoop_eq]
    rw [if_pos (show (readBatch 10 ([] : List Nat)).err = none from rfl),
      if_pos (show rbLen (readBatch 10 ([] : List Nat)) = 0 from rfl)]
    have h6 : rbLen (readBatch 10 (writeBatch [([] : BDoc)])) = 1 := by decide
    rw [h6]
    rfl

end MC
